import Mathlib

/-!
Shallow embedding of the cc-sdk-go inference-protocol adapter, together with
proofs about the properties its specification states.

Text is modelled as `List Char` (the Go code operates on ASCII byte offsets of
UTF-8 strings; every offset the code computes falls on a character boundary of
the values considered here, so character lists are a faithful model).  Machine
`int` values are modelled as `Int`.
-/

namespace CCSdk

/-! ## Byte-string search primitives (strings.Contains / regexp scanning) -/

/-- Index of the first occurrence of `needle` in `hay` (Go `strings.Index`):
`some i` when `needle` first occurs starting at position `i`, `none` when it
does not occur. -/
def findSub (needle : List Char) : List Char → Option Nat
  | [] => if needle.isEmpty then some 0 else none
  | c :: rest =>
    if needle.isPrefixOf (c :: rest) then some 0
    else (findSub needle rest).map (· + 1)

/-- Go `strings.Contains needle hay`. -/
def hasInfix (needle hay : List Char) : Bool :=
  (findSub needle hay).isSome

/-! ## oai/bridge_stream.go: the streaming state machine -/

namespace Oai

/-- `tagMaxPrefix` from bridge_stream.go: the length of the literal
"<tool_call>", the hold-back safety margin. -/
def tagMaxPrefix : Nat := ("<tool_call>".toList).length

/-- The sentinel substring searched for in the buffer (without the closing
angle bracket), from bridge_stream.go line 88. -/
def tagSentinel : List Char := "<tool_call".toList

/-- One streamed tool call, mirroring `oai.ToolCall` / `oai.FunctionCall`
(request.go).  `arguments` holds the serialized JSON argument object. -/
structure FunctionCall where
  name : String
  arguments : List Char
deriving Repr, DecidableEq

structure ToolCall where
  id : String
  type : String
  function : FunctionCall
deriving Repr, DecidableEq

/-- The delta of a `ChunkChoice`, mirroring `oai.ChunkDelta`.  `content` is an
Option to keep Go's distinction between a nil pointer and an empty string. -/
structure ChunkDelta where
  role : Option String := none
  content : Option (List Char) := none
  toolCalls : List ToolCall := []
deriving Repr, DecidableEq

/-- One streaming chunk choice: the delta plus the (possibly nil) finish
reason.  The chunk envelope fields (id, object, created, model) are constant
per stream and carry no information for the claims below, so the model keeps
the per-chunk choice only. -/
structure Chunk where
  delta : ChunkDelta := {}
  finishReason : Option String := none
deriving Repr, DecidableEq

/-- `oai.StreamState` (bridge_stream.go), without the constant identity fields
(ID, Created). -/
structure StreamState where
  model : String := ""
  hasTools : Bool
  buffering : Bool := false
  buffer : List Char := []
  emitted : Nat := 0
deriving Repr, DecidableEq

/-- `NewStreamState`: a fresh state with empty buffer and cursor 0. -/
def StreamState.new (hasTools : Bool) : StreamState :=
  { hasTools := hasTools }

/-- `makeContentChunk`: a chunk whose delta carries only content. -/
def makeContentChunk (content : List Char) : Chunk :=
  { delta := { content := some content } }

/-- `InitChunk`: the initial role-only chunk. -/
def StreamState.initChunk (_ss : StreamState) : Chunk :=
  { delta := { role := some "assistant" } }

/-- `StreamState.TextDeltaChunk` (bridge_stream.go lines 74-103), translated
step for step.  In Go, `safeEnd := ss.buffer.Len() - tagMaxPrefix` may be
negative; since `ss.Emitted >= 0`, the guard `safeEnd <= ss.Emitted` then
fires, which coincides with truncated Nat subtraction here. -/
def StreamState.textDeltaChunk (ss : StreamState) (text : List Char) :
    StreamState × Option Chunk :=
  if !ss.hasTools then
    (ss, some (makeContentChunk text))
  else
    -- Tools mode: accumulate into buffer
    let ss := { ss with buffer := ss.buffer ++ text }
    if ss.buffering then
      (ss, none)
    else if CCSdk.hasInfix tagSentinel ss.buffer then
      ({ ss with buffering := true }, none)
    else
      let safeEnd := ss.buffer.length - tagMaxPrefix
      if safeEnd ≤ ss.emitted then
        (ss, none)
      else
        let content := (ss.buffer.take safeEnd).drop ss.emitted
        ({ ss with emitted := safeEnd }, some (makeContentChunk content))

/-- Feed a list of text fragments through `textDeltaChunk`, collecting the
emitted content strings in order (the concatenation of the delta contents of
all chunks produced before the stream finishes). -/
def StreamState.runDeltas (ss : StreamState) : List (List Char) → StreamState × List Char
  | [] => (ss, [])
  | t :: ts =>
    match ss.textDeltaChunk t with
    | (ss', none) => ss'.runDeltas ts
    | (ss', some c) =>
      let (ssF, out) := ss'.runDeltas ts
      (ssF, (c.delta.content.getD []) ++ out)

/-- The content carried by an optional chunk (empty when no chunk or no
content was emitted). -/
def contentOf : Option Chunk → List Char
  | none => []
  | some c => c.delta.content.getD []

end Oai

/-! ## A model of Go ct encoding/json values and decoding

`JVal` models the JSON values produced by Go's decoder.  Numbers keep their
source lexeme: Go decodes them to float64 (or json.Number under UseNumber);
none of the verified properties depends on numeric re-formatting, and the
lexeme agrees with Go's output on every literal appearing below. -/

inductive JVal where
  | jnull
  | jbool (b : Bool)
  | jnum (lexeme : String)
  | jstr (s : String)
  | jarr (elems : List JVal)
  | jobj (fields : List (String × JVal))
deriving Repr

/-- JSON insignificant whitespace (RFC 8259, as accepted by encoding/json). -/
def jsonWs (c : Char) : Bool :=
  c = ' ' || c = '\t' || c = '\n' || c = '\r'

def skipWs : List Char → List Char
  | [] => []
  | c :: rest => if jsonWs c then skipWs rest else c :: rest

def isDigit (c : Char) : Bool := '0' ≤ c && c ≤ '9'

def hexVal? (c : Char) : Option Nat :=
  let n := c.toNat
  if 48 ≤ n && n ≤ 57 then some (n - 48)
  else if 97 ≤ n && n ≤ 102 then some (n - 87)
  else if 65 ≤ n && n ≤ 70 then some (n - 55)
  else none

def parseHex4 : List Char → Option (Nat × List Char)
  | a :: b :: c :: d :: rest =>
    match hexVal? a, hexVal? b, hexVal? c, hexVal? d with
    | some x, some y, some z, some w => some (((x * 16 + y) * 16 + z) * 16 + w, rest)
    | _, _, _, _ => none
  | _ => none

/-- Decode a JSON string body (the opening quote already consumed), following
Go's unquoting: the standard escapes, \uXXXX with surrogate-pair combination,
U+FFFD for invalid surrogates, and rejection of raw control characters. -/
def parseJStringAux : Nat → List Char → List Char → Option (String × List Char)
  | 0, _, _ => none
  | _ + 1, acc, '"' :: rest => some (String.mk acc.reverse, rest)
  | fuel + 1, acc, '\\' :: e :: rest =>
    match e with
    | '"' => parseJStringAux fuel ('"' :: acc) rest
    | '\\' => parseJStringAux fuel ('\\' :: acc) rest
    | '/' => parseJStringAux fuel ('/' :: acc) rest
    | 'b' => parseJStringAux fuel (Char.ofNat 0x08 :: acc) rest
    | 'f' => parseJStringAux fuel (Char.ofNat 0x0C :: acc) rest
    | 'n' => parseJStringAux fuel ('\n' :: acc) rest
    | 'r' => parseJStringAux fuel ('\r' :: acc) rest
    | 't' => parseJStringAux fuel ('\t' :: acc) rest
    | 'u' =>
      match parseHex4 rest with
      | none => none
      | some (n, rest1) =>
        if 0xD800 ≤ n && n ≤ 0xDBFF then
          match rest1 with
          | '\\' :: 'u' :: rest2 =>
            match parseHex4 rest2 with
            | some (m, rest3) =>
              if 0xDC00 ≤ m && m ≤ 0xDFFF then
                parseJStringAux fuel
                  (Char.ofNat (0x10000 + (n - 0xD800) * 0x400 + (m - 0xDC00)) :: acc) rest3
              else parseJStringAux fuel (Char.ofNat 0xFFFD :: acc) rest1
            | none => parseJStringAux fuel (Char.ofNat 0xFFFD :: acc) rest1
          | _ => parseJStringAux fuel (Char.ofNat 0xFFFD :: acc) rest1
        else if 0xDC00 ≤ n && n ≤ 0xDFFF then
          parseJStringAux fuel (Char.ofNat 0xFFFD :: acc) rest1
        else
          parseJStringAux fuel (Char.ofNat n :: acc) rest1
    | _ => none
  | fuel + 1, acc, c :: rest =>
    if c.toNat < 0x20 then none else parseJStringAux fuel (c :: acc) rest
  | _, _, [] => none

def parseJString (s : List Char) : Option (String × List Char) :=
  parseJStringAux (s.length + 1) [] s

def span (p : Char → Bool) : List Char → List Char × List Char
  | [] => ([], [])
  | c :: rest =>
    if p c then
      let (a, b) := span p rest
      (c :: a, b)
    else ([], c :: rest)

/-- JSON number grammar: minus? int frac? exp?.  Returns the lexeme. -/
def parseJNumber (s : List Char) : Option (String × List Char) :=
  let (neg, s1) := match s with
    | '-' :: rest => (['-'], rest)
    | _ => (([] : List Char), s)
  match s1 with
  | [] => none
  | c :: _ =>
    if !isDigit c then none
    else
      let (intPart, s2) :=
        match s1 with
        | '0' :: rest => (['0'], rest)
        | _ => span isDigit s1
      let (fracPart, s3) :=
        match s2 with
        | '.' :: rest =>
          match span isDigit rest with
          | ([], _) => ([], s2)
          | (ds, r) => ('.' :: ds, r)
        | _ => (([] : List Char), s2)
      let ok : Bool := match s2 with
        | '.' :: rest => !(span isDigit rest).1.isEmpty
        | _ => true
      if !ok then none
      else
        match s3 with
        | e :: rest =>
          if e = 'e' || e = 'E' then
            let (sign, r1) := match rest with
              | '+' :: r => (['+'], r)
              | '-' :: r => (['-'], r)
              | _ => (([] : List Char), rest)
            match span isDigit r1 with
            | ([], _) => none
            | (ds, r2) => some (String.mk (neg ++ intPart ++ fracPart ++ e :: sign ++ ds), r2)
          else some (String.mk (neg ++ intPart ++ fracPart), s3)
        | [] => some (String.mk (neg ++ intPart ++ fracPart), s3)

mutual

/-- One JSON value, mirroring encoding/json's grammar.  `fuel` only bounds
nesting depth; every recursive call follows the consumption of at least one
input character, so `length + 1` fuel is always sufficient. -/
def parseVal : Nat → List Char → Option (JVal × List Char)
  | 0, _ => none
  | fuel + 1, s =>
    match skipWs s with
    | [] => none
    | c :: rest =>
      if c = '"' then (parseJString rest).map (fun p => (.jstr p.1, p.2))
      else if c = '{' then
        match skipWs rest with
        | '}' :: r => some (.jobj [], r)
        | r => (parseMembers fuel r).map (fun p => (.jobj p.1, p.2))
      else if c = '[' then
        match skipWs rest with
        | ']' :: r => some (.jarr [], r)
        | r => (parseElems fuel r).map (fun p => (.jarr p.1, p.2))
      else if c = 't' then
        match rest with
        | 'r' :: 'u' :: 'e' :: r => some (.jbool true, r)
        | _ => none
      else if c = 'f' then
        match rest with
        | 'a' :: 'l' :: 's' :: 'e' :: r => some (.jbool false, r)
        | _ => none
      else if c = 'n' then
        match rest with
        | 'u' :: 'l' :: 'l' :: r => some (.jnull, r)
        | _ => none
      else
        (parseJNumber (c :: rest)).map (fun p => (.jnum p.1, p.2))

/-- Object members after the opening brace (first member not yet consumed). -/
def parseMembers : Nat → List Char → Option (List (String × JVal) × List Char)
  | 0, _ => none
  | fuel + 1, s =>
    match skipWs s with
    | '"' :: rest =>
      match parseJString rest with
      | none => none
      | some (key, r1) =>
        match skipWs r1 with
        | ':' :: r2 =>
          match parseVal fuel r2 with
          | none => none
          | some (v, r3) =>
            match skipWs r3 with
            | ',' :: r4 => (parseMembers fuel r4).map (fun p => ((key, v) :: p.1, p.2))
            | '}' :: r4 => some ([(key, v)], r4)
            | _ => none
        | _ => none
    | _ => none

/-- Array elements after the opening bracket (first element not yet consumed). -/
def parseElems : Nat → List Char → Option (List JVal × List Char)
  | 0, _ => none
  | fuel + 1, s =>
    match parseVal fuel s with
    | none => none
    | some (v, r1) =>
      match skipWs r1 with
      | ',' :: r2 => (parseElems fuel r2).map (fun p => (v :: p.1, p.2))
      | ']' :: r2 => some ([v], r2)
      | _ => none

end

/-- Go json.Unmarshal's top level: exactly one value, then only whitespace. -/
def parseTop (s : List Char) : Option JVal :=
  match parseVal (s.length + 1) s with
  | none => none
  | some (v, rest) => if (skipWs rest).isEmpty then some v else none

def toHexDigit (n : Nat) : Char :=
  if n < 10 then Char.ofNat ('0'.toNat + n) else Char.ofNat ('a'.toNat + n - 10)

/-- Go json.Marshal's string encoding with its default HTML escaping:
quote, backslash, \n, \r, \t, \u00XX for other control characters, and
<, >, &,  ,  . -/
def marshalStringChar (c : Char) : List Char :=
  if c = '"' then ['\\', '"']
  else if c = '\\' then ['\\', '\\']
  else if c = '\n' then ['\\', 'n']
  else if c = '\r' then ['\\', 'r']
  else if c = '\t' then ['\\', 't']
  else if c.toNat < 0x20 then
    '\\' :: 'u' :: '0' :: '0' :: [toHexDigit (c.toNat / 16), toHexDigit (c.toNat % 16)]
  else if c = '<' then ['\\', 'u', '0', '0', '3', 'c']
  else if c = '>' then ['\\', 'u', '0', '0', '3', 'e']
  else if c = '&' then ['\\', 'u', '0', '0', '2', '6']
  else if c.toNat = 0x2028 then ['\\', 'u', '2', '0', '2', '8']
  else if c.toNat = 0x2029 then ['\\', 'u', '2', '0', '2', '9']
  else [c]

def marshalString (s : String) : List Char :=
  '"' :: (s.toList.flatMap marshalStringChar) ++ ['"']

/-- Replace or append a key in an association list; models assignment into a
Go map while decoding an object (a later duplicate key overwrites). -/
def upsert (k : String) (v : JVal) : List (String × JVal) → List (String × JVal)
  | [] => [(k, v)]
  | (k', v') :: rest => if k' = k then (k, v) :: rest else (k', v') :: upsert k v rest

def dedupeFields (fs : List (String × JVal)) : List (String × JVal) :=
  fs.foldl (fun acc p => upsert p.1 p.2 acc) []

/-- Insertion sort by key with Go's byte-wise string order (String order on
code points coincides with byte-wise UTF-8 order). -/
def insertByKey (p : String × JVal) : List (String × JVal) → List (String × JVal)
  | [] => [p]
  | q :: rest => if p.1 ≤ q.1 then p :: q :: rest else q :: insertByKey p rest

def sortByKey (fs : List (String × JVal)) : List (String × JVal) :=
  fs.foldr insertByKey []

def joinComma (xs : List (List Char)) : List Char :=
  match xs with
  | [] => []
  | x :: rest => x ++ (rest.flatMap (fun y => ',' :: y))

/-- Go json.Marshal applied to a value that was decoded into `any` /
map[string]any: objects become maps, so duplicate keys collapse (last wins)
and output keys are sorted; numbers are emitted from their lexeme (Go
round-trips them through float64, which agrees on the literals used in this
development and is irrelevant to every claim below).  `fuel` only bounds the
nesting depth; the nesting depth of a parsed value is at most the length of
the text it was parsed from, which is the fuel callers pass. -/
def marshalAux : Nat → JVal → List Char
  | 0, _ => []
  | fuel + 1, v =>
    match v with
    | .jnull => "null".toList
    | .jbool true => "true".toList
    | .jbool false => "false".toList
    | .jnum lx => lx.toList
    | .jstr s => marshalString s
    | .jarr xs => '[' :: (joinComma (xs.map (marshalAux fuel))) ++ [']']
    | .jobj fs =>
      '{' :: (joinComma ((sortByKey (dedupeFields fs)).map
        (fun p => marshalString p.1 ++ ':' :: marshalAux fuel p.2))) ++ ['}']

/-! ## oai tools.go: ParseToolCalls and the tool-call payload decode -/

namespace Oai

def asciiToLower (c : Char) : Char :=
  if 'A' ≤ c && c ≤ 'Z' then Char.ofNat (c.toNat + 32) else c

/-- Case-insensitive JSON key matching against a struct field name, as done
by encoding/json (ASCII folding; the field names here are pure ASCII). -/
def eqFold (a b : String) : Bool :=
  a.toList.map asciiToLower = b.toList.map asciiToLower

/-- The target of the unmarshal inside ParseToolCalls:
struct with Name string and Arguments map[string]any.  `arguments` is
`JVal.jnull` for a nil map and `JVal.jobj fields` otherwise. -/
structure ToolPayload where
  name : String
  arguments : JVal

/-- Go json.Unmarshal of a parsed JSON value into the ToolPayload struct:
a top-level null is a no-op; an object is walked field by field, unknown
keys are ignored, `name` must be a string (null keeps the current value),
`arguments` must be an object (null sets the map back to nil, as Unmarshal
does for map fields); any other top-level value or field type mismatch is
an error. -/
def unmarshalToolPayload : JVal → Option ToolPayload
  | .jnull => some { name := "", arguments := .jnull }
  | .jobj fs =>
    fs.foldlM
      (fun acc p =>
        if eqFold p.1 "name" then
          match p.2 with
          | .jstr s => some { acc with name := s }
          | .jnull => some acc
          | _ => none
        else if eqFold p.1 "arguments" then
          match p.2 with
          | .jobj _ => some { acc with arguments := p.2 }
          | .jnull => some { acc with arguments := .jnull }
          | _ => none
        else some acc)
      { name := "", arguments := .jnull }
  | _ => none

/-- The full payload decode attempted for each matched tag: json.Unmarshal of
the payload text, then a (never-failing) json.Marshal of the arguments. -/
def decodePayload (inner : List Char) : Option (String × List Char) :=
  match parseTop inner with
  | none => none
  | some v =>
    match unmarshalToolPayload v with
    | none => none
    | some p => some (p.name, marshalAux (inner.length + 1) p.arguments)

/-- unicode.IsSpace, used by strings.TrimSpace: the Unicode White_Space
code points. -/
def goIsSpace (c : Char) : Bool :=
  let n := c.toNat
  n = 0x20 || n = 0x9 || n = 0xA || n = 0xB || n = 0xC || n = 0xD ||
  n = 0x85 || n = 0xA0 || n = 0x1680 || (0x2000 ≤ n && n ≤ 0x200A) ||
  n = 0x2028 || n = 0x2029 || n = 0x202F || n = 0x205F || n = 0x3000

/-- strings.TrimSpace. -/
def trimSpace (l : List Char) : List Char :=
  ((l.dropWhile goIsSpace).reverse.dropWhile goIsSpace).reverse

def openTag : List Char := "<tool_call>".toList

def closeTag : List Char := "</tool_call>".toList

/-- The matches of the non-greedy regex of tools.go, in scan order: the list
of (text before the tag, payload inside the tag) pairs, plus the text after
the last match.  A match is the leftmost occurrence of the opening tag
followed by the earliest occurrence of the closing tag; scanning resumes
after the match.  `fuel` only bounds the number of matches; every match
consumes at least one character, so `text.length` fuel is always enough. -/
def toolCallMatches : Nat → List Char → List (List Char × List Char) × List Char
  | 0, text => ([], text)
  | fuel + 1, text =>
    match findSub openTag text with
    | none => ([], text)
    | some i =>
      let afterOpen := text.drop (i + openTag.length)
      match findSub closeTag afterOpen with
      | none => ([], text)
      | some j =>
        let rest := afterOpen.drop (j + closeTag.length)
        let (segs, tail) := toolCallMatches fuel rest
        ((text.take i, afterOpen.take j) :: segs, tail)

/-- The loop body of ParseToolCalls over the regex matches.  `gen` models the
gonanoid.New() generator: `gen k` is the random id drawn for the k-th
successful call, `none` modelling a generation failure, in which case the
code falls back to the decimal call counter.  On a payload decode failure
the whole tag is preserved in the clean text (the Go code achieves this by
not advancing `lastEnd`); on success the tag span is dropped and a call is
recorded. -/
def parseSegs (gen : Nat → Option String) :
    Nat → List (List Char × List Char) → List Char × List ToolCall
  | _, [] => ([], [])
  | k, (pre, inner) :: rest =>
    match decodePayload inner with
    | none =>
      let (c, calls) := parseSegs gen k rest
      (pre ++ openTag ++ inner ++ closeTag ++ c, calls)
    | some (name, args) =>
      let (c, calls) := parseSegs gen (k + 1) rest
      (pre ++ c,
        { id := "call_" ++ (match gen k with | some s => s | none => Nat.repr k),
          type := "function",
          function := { name := name, arguments := args } } :: calls)

/-- ParseToolCalls (tools.go): with no match the text is returned untouched;
otherwise matched valid tags are removed, calls are extracted, and the clean
text is TrimSpace'd. -/
def parseToolCalls (gen : Nat → Option String) (text : List Char) :
    List Char × List ToolCall :=
  let (segs, tail) := toolCallMatches text.length text
  match segs with
  | [] => (text, [])
  | _ =>
    let (c, calls) := parseSegs gen 0 segs
    (trimSpace (c ++ tail), calls)

/-- Reassemble the full tags of a match list. -/
def rebuildSegs : List (List Char × List Char) → List Char
  | [] => []
  | (pre, inner) :: rest => pre ++ openTag ++ inner ++ closeTag ++ rebuildSegs rest

/-- The characters of the pattern call_[A-Za-z0-9_-]+ after the prefix:
the URL-safe nanoid alphabet. -/
def isIdChar (c : Char) : Bool :=
  ('A' ≤ c && c ≤ 'Z') || ('a' ≤ c && c ≤ 'z') || ('0' ≤ c && c ≤ '9') || c = '_' || c = '-'

/-- The id suffix used for the k-th successful call: the generated nanoid, or
the decimal counter when generation failed. -/
def tokenOf (gen : Nat → Option String) (k : Nat) : String :=
  match gen k with
  | some s => s
  | none => Nat.repr k

/-- The generator used to witness the id theorem: distinct all-'a' tokens of
increasing length. -/
def genWitness : Nat → Option String :=
  fun k => some (String.mk (List.replicate (k + 1) 'a'))

end Oai

/-! ## ccwire/content.go: stream-event accessors -/

namespace Ccwire

/-- Go map lookup on a decoded JSON object.  The maps handled here come from
json decoding, whose assoc lists have been deduplicated, so taking the first
binding is exact. -/
def jGet (m : List (String × JVal)) (k : String) : Option JVal :=
  (m.find? (fun p => p.1 = k)).map (fun p => p.2)

/-- StreamEvent.DeltaText (content.go): the delta.text field, only when
delta.type is the string "text_delta"; empty otherwise. -/
def deltaText (raw : List (String × JVal)) : String :=
  match jGet raw "delta" with
  | some (.jobj d) =>
    match jGet d "type" with
    | some (.jstr dt) =>
      if dt = "text_delta" then
        match jGet d "text" with
        | some (.jstr t) => t
        | _ => ""
      else ""
    | _ => ""
  | _ => ""

/-- ParseStreamEvent (content.go): the type field of the raw event, empty
when missing or not a string. -/
def eventType (raw : List (String × JVal)) : String :=
  match jGet raw "type" with
  | some (.jstr t) => t
  | _ => ""

/-! ## ccwire/types.go and ccwire/parse.go: the NDJSON wire parser -/

/-- ccwire.Usage / ccwire.ResultUsage: four token counters. -/
structure WUsage where
  inputTokens : Int := 0
  outputTokens : Int := 0
  cacheCreationInputTokens : Int := 0
  cacheReadInputTokens : Int := 0
deriving Repr, DecidableEq

/-- ccwire.ContentBlock.  `input` is the tool_use arguments map
(JVal.jnull for nil). -/
structure ContentBlock where
  type : String := ""
  text : String := ""
  thinking : String := ""
  id : String := ""
  name : String := ""
  input : JVal := .jnull
  toolUseID : String := ""
  content : String := ""
  isError : Bool := false
deriving Repr

/-- ccwire.AssistantInner. -/
structure AssistantInner where
  id : String := ""
  type : String := ""
  role : String := ""
  model : String := ""
  content : List ContentBlock := []
  stopReason : Option String := none
  stopSequence : Option String := none
  usage : WUsage := {}
deriving Repr

/-- ccwire.AssistantMessage.  The `error` field is not declared on the
struct shipped in ccwire/types.go but is read by the cchat stream as the
rate-limit marker; modelled from the spec: an `error` wire field whose value
`rate_limit` marks a rate-limited response, empty when absent. -/
structure AssistantMessage where
  message : AssistantInner := {}
  sessionID : String := ""
  parentToolUseID : Option String := none
  error : String := ""
deriving Repr

/-- ccwire.SystemMessage. -/
structure SystemMessage where
  subtype : String := ""
  sessionID : String := ""
  model : String := ""
  cwd : String := ""
  tools : List String := []
deriving Repr, DecidableEq

/-- ccwire.ResultMessage.  `totalCostUSD` keeps the number lexeme (the Go
field is a float64 and no verified property reads it). -/
structure ResultMessage where
  subtype : String := ""
  isError : Bool := false
  result : String := ""
  durationMS : Int := 0
  sessionID : String := ""
  totalCostUSD : String := ""
  stopReason : Option String := none
  usage : WUsage := {}
  modelUsage : List (String × JVal) := []
deriving Repr

/-- ccwire.StreamEventMessage. -/
structure StreamEventMessage where
  event : List (String × JVal) := []
  sessionID : String := ""
deriving Repr

/-- Decoding a JSON value into a Go string field: strings succeed, null
keeps the current value, anything else is a type error. -/
def decStr (v : JVal) (cur : String) : Option String :=
  match v with
  | .jstr s => some s
  | .jnull => some cur
  | _ => none

/-- Decoding into a *string field: null sets the pointer to nil. -/
def decOptStr (v : JVal) (_cur : Option String) : Option (Option String) :=
  match v with
  | .jstr s => some (some s)
  | .jnull => some none
  | _ => none

/-- Decoding into a bool field. -/
def decBool (v : JVal) (cur : Bool) : Option Bool :=
  match v with
  | .jbool b => some b
  | .jnull => some cur
  | _ => none

def digitsToInt (ds : List Char) : Int :=
  ds.foldl (fun a c => a * 10 + (Int.ofNat (c.toNat - '0'.toNat))) 0

/-- strconv-style integer parse of a JSON number lexeme, as used when
decoding a number into a Go int field: an optional minus sign followed by
digits only (a fraction or exponent is a decode error). -/
def parseGoInt (lx : String) : Option Int :=
  match lx.toList with
  | '-' :: ds => if !ds.isEmpty && ds.all isDigit then some (-(digitsToInt ds)) else none
  | ds => if !ds.isEmpty && ds.all isDigit then some (digitsToInt ds) else none

/-- Decoding into an int field. -/
def decInt (v : JVal) (cur : Int) : Option Int :=
  match v with
  | .jnum lx => parseGoInt lx
  | .jnull => some cur
  | _ => none

/-- Decoding into a float64 field (the lexeme is kept). -/
def decNum (v : JVal) (cur : String) : Option String :=
  match v with
  | .jnum lx => some lx
  | .jnull => some cur
  | _ => none

/-- Decoding into a map[string]any field: object (deduplicated, later keys
win) or null (nil map). -/
def decRawMap (v : JVal) (_cur : List (String × JVal)) : Option (List (String × JVal)) :=
  match v with
  | .jobj fs => some (dedupeFields fs)
  | .jnull => some []
  | _ => none

/-- Decoding into a []string field: each element must be a string (a null
element keeps the zero value ""). -/
def decStrList (v : JVal) (_cur : List String) : Option (List String) :=
  match v with
  | .jarr xs =>
    xs.mapM (fun x =>
      match x with
      | .jstr s => some s
      | .jnull => some ""
      | _ => none)
  | .jnull => some []
  | _ => none

/-- Unmarshal of an object (or null) into a struct: walk the fields in
order, dispatching each key through `step`; unknown keys are ignored by the
dispatchers themselves. -/
def decStruct {α : Type} (zero : α) (step : α → String × JVal → Option α) :
    JVal → Option α
  | .jnull => some zero
  | .jobj fs => fs.foldlM step zero
  | _ => none

def decodeUsage : JVal → Option WUsage :=
  decStruct {} (fun acc p =>
    if Oai.eqFold p.1 "input_tokens" then
      (decInt p.2 acc.inputTokens).map (fun x => { acc with inputTokens := x })
    else if Oai.eqFold p.1 "output_tokens" then
      (decInt p.2 acc.outputTokens).map (fun x => { acc with outputTokens := x })
    else if Oai.eqFold p.1 "cache_creation_input_tokens" then
      (decInt p.2 acc.cacheCreationInputTokens).map
        (fun x => { acc with cacheCreationInputTokens := x })
    else if Oai.eqFold p.1 "cache_read_input_tokens" then
      (decInt p.2 acc.cacheReadInputTokens).map (fun x => { acc with cacheReadInputTokens := x })
    else some acc)

def decodeContentBlock : JVal → Option ContentBlock :=
  decStruct {} (fun acc p =>
    if Oai.eqFold p.1 "type" then
      (decStr p.2 acc.type).map (fun x => { acc with type := x })
    else if Oai.eqFold p.1 "text" then
      (decStr p.2 acc.text).map (fun x => { acc with text := x })
    else if Oai.eqFold p.1 "thinking" then
      (decStr p.2 acc.thinking).map (fun x => { acc with thinking := x })
    else if Oai.eqFold p.1 "id" then
      (decStr p.2 acc.id).map (fun x => { acc with id := x })
    else if Oai.eqFold p.1 "name" then
      (decStr p.2 acc.name).map (fun x => { acc with name := x })
    else if Oai.eqFold p.1 "input" then
      (decRawMap p.2 []).map (fun x => { acc with input := .jobj x })
    else if Oai.eqFold p.1 "tool_use_id" then
      (decStr p.2 acc.toolUseID).map (fun x => { acc with toolUseID := x })
    else if Oai.eqFold p.1 "content" then
      (decStr p.2 acc.content).map (fun x => { acc with content := x })
    else if Oai.eqFold p.1 "is_error" then
      (decBool p.2 acc.isError).map (fun x => { acc with isError := x })
    else some acc)

def decodeBlocks (v : JVal) : Option (List ContentBlock) :=
  match v with
  | .jarr xs => xs.mapM decodeContentBlock
  | .jnull => some []
  | _ => none

def decodeAssistantInner : JVal → Option AssistantInner :=
  decStruct {} (fun acc p =>
    if Oai.eqFold p.1 "id" then
      (decStr p.2 acc.id).map (fun x => { acc with id := x })
    else if Oai.eqFold p.1 "type" then
      (decStr p.2 acc.type).map (fun x => { acc with type := x })
    else if Oai.eqFold p.1 "role" then
      (decStr p.2 acc.role).map (fun x => { acc with role := x })
    else if Oai.eqFold p.1 "model" then
      (decStr p.2 acc.model).map (fun x => { acc with model := x })
    else if Oai.eqFold p.1 "content" then
      (decodeBlocks p.2).map (fun x => { acc with content := x })
    else if Oai.eqFold p.1 "stop_reason" then
      (decOptStr p.2 acc.stopReason).map (fun x => { acc with stopReason := x })
    else if Oai.eqFold p.1 "stop_sequence" then
      (decOptStr p.2 acc.stopSequence).map (fun x => { acc with stopSequence := x })
    else if Oai.eqFold p.1 "usage" then
      (decodeUsage p.2).map (fun x => { acc with usage := x })
    else some acc)

def decodeAssistant : JVal → Option AssistantMessage :=
  decStruct {} (fun acc p =>
    if Oai.eqFold p.1 "message" then
      (decodeAssistantInner p.2).map (fun x => { acc with message := x })
    else if Oai.eqFold p.1 "session_id" then
      (decStr p.2 acc.sessionID).map (fun x => { acc with sessionID := x })
    else if Oai.eqFold p.1 "parent_tool_use_id" then
      (decOptStr p.2 acc.parentToolUseID).map (fun x => { acc with parentToolUseID := x })
    else if Oai.eqFold p.1 "error" then
      (decStr p.2 acc.error).map (fun x => { acc with error := x })
    else some acc)

def decodeSystem : JVal → Option SystemMessage :=
  decStruct {} (fun acc p =>
    if Oai.eqFold p.1 "subtype" then
      (decStr p.2 acc.subtype).map (fun x => { acc with subtype := x })
    else if Oai.eqFold p.1 "session_id" then
      (decStr p.2 acc.sessionID).map (fun x => { acc with sessionID := x })
    else if Oai.eqFold p.1 "model" then
      (decStr p.2 acc.model).map (fun x => { acc with model := x })
    else if Oai.eqFold p.1 "cwd" then
      (decStr p.2 acc.cwd).map (fun x => { acc with cwd := x })
    else if Oai.eqFold p.1 "tools" then
      (decStrList p.2 acc.tools).map (fun x => { acc with tools := x })
    else some acc)

def decodeResult : JVal → Option ResultMessage :=
  decStruct {} (fun acc p =>
    if Oai.eqFold p.1 "subtype" then
      (decStr p.2 acc.subtype).map (fun x => { acc with subtype := x })
    else if Oai.eqFold p.1 "is_error" then
      (decBool p.2 acc.isError).map (fun x => { acc with isError := x })
    else if Oai.eqFold p.1 "result" then
      (decStr p.2 acc.result).map (fun x => { acc with result := x })
    else if Oai.eqFold p.1 "duration_ms" then
      (decInt p.2 acc.durationMS).map (fun x => { acc with durationMS := x })
    else if Oai.eqFold p.1 "session_id" then
      (decStr p.2 acc.sessionID).map (fun x => { acc with sessionID := x })
    else if Oai.eqFold p.1 "total_cost_usd" then
      (decNum p.2 acc.totalCostUSD).map (fun x => { acc with totalCostUSD := x })
    else if Oai.eqFold p.1 "stop_reason" then
      (decOptStr p.2 acc.stopReason).map (fun x => { acc with stopReason := x })
    else if Oai.eqFold p.1 "usage" then
      (decodeUsage p.2).map (fun x => { acc with usage := x })
    else if Oai.eqFold p.1 "modelUsage" then
      (decRawMap p.2 acc.modelUsage).map (fun x => { acc with modelUsage := x })
    else some acc)

/-- The stream_event variant decode (parse.go decodes it with UseNumber; the
model keeps every number's lexeme, so the same decoder serves). -/
def decodeStreamEvent : JVal → Option StreamEventMessage :=
  decStruct {} (fun acc p =>
    if Oai.eqFold p.1 "type" then
      (decStr p.2 "").map (fun _ => acc)
    else if Oai.eqFold p.1 "event" then
      (decRawMap p.2 acc.event).map (fun x => { acc with event := x })
    else if Oai.eqFold p.1 "session_id" then
      (decStr p.2 acc.sessionID).map (fun x => { acc with sessionID := x })
    else some acc)

/-- The envelope decode of parse.go: struct with the single field
`type string`.  `none` is a decode error (the record is skipped); `some t`
is the peeked type, "" when the field is absent. -/
def envelopeType (line : List Char) : Option String :=
  match parseTop line with
  | none => none
  | some v =>
    match v with
    | .jnull => some ""
    | .jobj fs =>
      fs.foldlM (fun acc p => if Oai.eqFold p.1 "type" then decStr p.2 acc else some acc) ""
    | _ => none

/-- The tagged union of wire messages (ccwire.Message). -/
inductive WireMessage where
  | system (m : SystemMessage)
  | assistant (m : AssistantMessage)
  | result (m : ResultMessage)
  | streamEvent (m : StreamEventMessage)
deriving Repr

/-- parseTyped (parse.go lines 57-101): dispatch on the peeked type; a
recognized type whose payload fails to decode is an error carrying the type
name; an unrecognized type maps to no message and no error. -/
def parseTyped (typ : String) (line : List Char) : Except String (Option WireMessage) :=
  if typ = "system" then
    match (parseTop line).bind decodeSystem with
    | some m => .ok (some (.system m))
    | none => .error typ
  else if typ = "assistant" then
    match (parseTop line).bind decodeAssistant with
    | some m => .ok (some (.assistant m))
    | none => .error typ
  else if typ = "result" then
    match (parseTop line).bind decodeResult with
    | some m => .ok (some (.result m))
    | none => .error typ
  else if typ = "stream_event" then
    match (parseTop line).bind decodeStreamEvent with
    | some m => .ok (some (.streamEvent m))
    | none => .error typ
  else
    .ok none

/-- The outcome of one Parser.Next call over the remaining input lines. -/
inductive NextResult where
  | eof
  | message (m : WireMessage) (rest : List (List Char))
  | fail (typ : String)
deriving Repr

/-- Parser.Next (parse.go lines 28-55) over the list of remaining NDJSON
records: empty records are skipped, records whose envelope decode fails are
skipped, recognized types with malformed payloads return an error, unknown
types are skipped, and the end of input is EOF. -/
def parserNext : List (List Char) → NextResult
  | [] => .eof
  | line :: rest =>
    if line.isEmpty then parserNext rest
    else
      match envelopeType line with
      | none => parserNext rest
      | some t =>
        match parseTyped t line with
        | .error e => .fail e
        | .ok none => parserNext rest
        | .ok (some m) => .message m rest

def recognizedTypes : List String := ["system", "assistant", "result", "stream_event"]

/-- The variant-schema decode attempted for a recognized type. -/
def variantDecode (typ : String) (line : List Char) : Option WireMessage :=
  if typ = "system" then ((parseTop line).bind decodeSystem).map .system
  else if typ = "assistant" then ((parseTop line).bind decodeAssistant).map .assistant
  else if typ = "result" then ((parseTop line).bind decodeResult).map .result
  else if typ = "stream_event" then ((parseTop line).bind decodeStreamEvent).map .streamEvent
  else none

/-- Extract the assistant message carried by a parser result, if any. -/
def assistantOf : NextResult → Option AssistantMessage
  | .message (.assistant am) _ => some am
  | _ => none

end Ccwire

/-! ## cchat: the stream over a subprocess (stream.go / client.go) -/

namespace Cchat

/-- cchat.RateLimitError. -/
structure RateLimitError where
  message : String
deriving Repr, DecidableEq

/-- The state Stream.Next operates on: the remaining stdout records, the
done flag, the cached result message, and the process's exit behaviour
observed by wait() at EOF. -/
structure MStream where
  lines : List (List Char)
  done : Bool := false
  result : Option Ccwire.ResultMessage := none
  procExitCode : Int := 0
  procStderr : String := ""

/-- The outcomes of one Stream.Next call. -/
inductive NextOut where
  | eof
  | procError (exitCode : Int) (stderr : String)
  | parseError (typ : String)
  | rateLimit (e : RateLimitError)
  | message (m : Ccwire.WireMessage)

/-- The rate-limit message extraction loop of Stream.Next: the text of the
first content block whose type is "text" (the loop breaks at the first such
block), empty when there is none. -/
def firstTextBlockText (am : Ccwire.AssistantMessage) : String :=
  match am.message.content.find? (fun b => b.type = "text") with
  | some b => b.text
  | none => ""

/-- Stream.Next (stream.go lines 49-96): EOF waits on the process and
surfaces a non-zero exit as a process error; a parse error is surfaced; an
assistant message carrying the error marker "rate_limit" becomes a
RateLimitError whose message falls back to "rate limit exceeded" when the
extracted text is empty; a result message is cached; everything else is
passed through. -/
def streamNext (s : MStream) : MStream × NextOut :=
  if s.done then (s, .eof)
  else
    match Ccwire.parserNext s.lines with
    | .eof =>
      let s' := { s with done := true }
      if s.procExitCode ≠ 0 then (s', .procError s.procExitCode s.procStderr)
      else (s', .eof)
    | .fail t => (s, .parseError t)
    | .message m rest =>
      let s' := { s with lines := rest }
      match m with
      | .assistant am =>
        if am.error = "rate_limit" then
          (s', .rateLimit { message :=
            if (firstTextBlockText am = "") then "rate limit exceeded"
            else firstTextBlockText am })
        else (s', .message m)
      | .result rm => ({ s' with result := some rm }, .message m)
      | _ => (s', .message m)

/-- The per-stream teardown state: the drain flag and the sync.Once guard of
Stream.Close. -/
structure CloseState where
  done : Bool := false
  closedOnce : Bool := false
deriving Repr, DecidableEq

/-- Stream.Close over (close state, semaphore token count): the once body
runs only on the first call -- kill and reap when not yet drained, then
release the semaphore slot (one token leaves the channel); every later call
does nothing.  Close always returns nil, modelled as `none`. -/
def streamClose : CloseState × Nat → (CloseState × Nat) × Option String
  | (s, sem) =>
    if s.closedOnce then ((s, sem), none)
    else (({ done := true, closedOnce := true }, sem - 1), none)

def closeIter : Nat → CloseState × Nat → CloseState × Nat
  | 0, p => p
  | k + 1, p => closeIter k (streamClose p).1

/-- The semaphore effect of a successful Client.Query: one token enters the
channel (client.go line 50), and the returned stream is unread and
unclosed. -/
def querySem (occupied : Nat) : Nat × CloseState :=
  (occupied + 1, {})

end Cchat

namespace Oai

/-- FinishChunk (bridge_stream.go lines 113-167).  The Go receiver also takes
an unused assistant-message argument, omitted here.  `gen` is the id
generator threaded through ParseToolCalls. -/
def StreamState.finishChunk (gen : Nat → Option String) (ss : StreamState) : List Chunk :=
  if ss.hasTools && !ss.buffer.isEmpty then
    let p := parseToolCalls gen ss.buffer
    if !p.2.isEmpty then
      (if ss.emitted < p.1.length then [makeContentChunk (p.1.drop ss.emitted)] else [])
        ++ [{ delta := { toolCalls := p.2 }, finishReason := some "tool_calls" }]
    else
      (if ss.emitted < ss.buffer.length then [makeContentChunk (ss.buffer.drop ss.emitted)] else [])
        ++ [{ delta := {}, finishReason := some "stop" }]
  else
    [{ delta := {}, finishReason := some "stop" }]

/-- HandleStreamEvent (bridge_stream.go lines 195-221): message_start learns
the model and yields the init chunk; content_block_delta forwards non-empty
delta text to textDeltaChunk; every other event type yields nothing. -/
def StreamState.handleStreamEvent (ss : StreamState) (raw : List (String × JVal)) :
    StreamState × List Chunk :=
  let ty := Ccwire.eventType raw
  if ty = "message_start" then
    let ss :=
      match Ccwire.jGet raw "message" with
      | some (.jobj m) =>
        match Ccwire.jGet m "model" with
        | some (.jstr model) => { ss with model := model }
        | _ => ss
      | _ => ss
    (ss, [ss.initChunk])
  else if ty = "content_block_delta" then
    let text := Ccwire.deltaText raw
    if text = "" then (ss, [])
    else
      match ss.textDeltaChunk text.toList with
      | (ss', none) => (ss', [])
      | (ss', some c) => (ss', [c])
  else (ss, [])

/-- One pre-finish interaction with the stream state: a direct InitChunk
call, a direct TextDeltaChunk call, or a wire event dispatched through
HandleStreamEvent. -/
inductive StreamOp where
  | initC : StreamOp
  | delta (text : List Char) : StreamOp
  | event (raw : List (String × JVal)) : StreamOp

def StreamState.stepOp (ss : StreamState) : StreamOp → StreamState × List Chunk
  | .initC => (ss, [ss.initChunk])
  | .delta t =>
    match ss.textDeltaChunk t with
    | (ss', none) => (ss', [])
    | (ss', some c) => (ss', [c])
  | .event raw => ss.handleStreamEvent raw

/-- A pre-finish run: the chunks emitted by a sequence of stream operations,
in order. -/
def StreamState.runOps (ss : StreamState) : List StreamOp → StreamState × List Chunk
  | [] => (ss, [])
  | op :: ops =>
    let r1 := ss.stepOp op
    let r2 := r1.1.runOps ops
    (r2.1, r1.2 ++ r2.2)

/-! ## oai/bridge_request.go: RequestToQuery's prompt construction -/

/-- The decoded shape of ChatMessage.Content: absent, a JSON string, an
array of typed parts (type, text), or some other JSON value (on which
StringContent yields ""). -/
inductive MContent where
  | mnull
  | mstr (s : String)
  | mparts (parts : List (String × String))
  | mother
deriving Repr, DecidableEq

/-- ChatMessage.StringContent (request.go): nil yields ""; a string is
returned as is; an array of content parts concatenates the text of every
part whose type is "text"; any other shape yields "". -/
def stringContent : MContent → String
  | .mnull => ""
  | .mstr s => s
  | .mparts ps => ps.foldl (fun acc p => if p.1 = "text" then acc ++ p.2 else acc) ""
  | .mother => ""

/-- oai.ChatMessage, restricted to the fields RequestToQuery reads. -/
structure MChatMessage where
  role : String
  content : MContent := .mnull
  toolCalls : List ToolCall := []
  toolCallID : String := ""
deriving Repr

/-- The <tool_call> re-encoding of one recorded assistant call
(bridge_request.go lines 43-48): json.Marshal of a two-key map, whose keys
marshal in sorted order (arguments before name); the Arguments RawMessage is
spliced compacted, which is the identity on the compact JSON this system
itself produces. -/
def renderAssistantCall (tc : ToolCall) : String :=
  "<tool_call>\x7b\"arguments\":" ++ String.mk tc.function.arguments ++ ",\"name\":" ++
    String.mk (marshalString tc.function.name) ++ "\x7d</tool_call>"

/-- The assistant-message text (bridge_request.go lines 35-52): the plain
text, or the text (when non-empty) and the tag renderings joined by blank
lines when the message records tool calls. -/
def assistantText (m : MChatMessage) : String :=
  let text := stringContent m.content
  if m.toolCalls.length > 0 then
    String.intercalate "\n\n"
      ((if text ≠ "" then [text] else []) ++ m.toolCalls.map renderAssistantCall)
  else text

/-- The conversation walk of RequestToQuery (bridge_request.go lines 27-57)
with its two accumulating buckets. -/
def buildParts (sys conv : List String) : List MChatMessage → List String × List String
  | [] => (sys, conv)
  | m :: rest =>
    if m.role = "system" then
      buildParts (sys ++ [stringContent m.content]) conv rest
    else if m.role = "user" then
      buildParts sys (conv ++ ["[user]: " ++ stringContent m.content]) rest
    else if m.role = "assistant" then
      buildParts sys (conv ++ ["[assistant]: " ++ assistantText m]) rest
    else if m.role = "tool" then
      buildParts sys
        (conv ++ ["[tool_result for " ++ m.toolCallID ++ "]: " ++ stringContent m.content]) rest
    else
      buildParts sys conv rest

/-- The prompt RequestToQuery returns (bridge_request.go line 71): the
conversation bucket joined by blank lines. -/
def requestToQueryPrompt (msgs : List MChatMessage) : String :=
  String.intercalate "\n\n" (buildParts [] [] msgs).2

/-- The per-message prompt contribution, written from the claim's words:
a user message contributes "[user]: " followed by its content, a tool
message contributes "[tool_result for <id>]: " followed by its content,
a system message contributes nothing to the prompt, and an assistant
message contributes its rendering. -/
def specPromptContribution (m : MChatMessage) : Option String :=
  if m.role = "system" then none
  else if m.role = "user" then some ("[user]: " ++ stringContent m.content)
  else if m.role = "assistant" then some ("[assistant]: " ++ assistantText m)
  else if m.role = "tool" then
    some ("[tool_result for " ++ m.toolCallID ++ "]: " ++ stringContent m.content)
  else none

/-! ## oai/bridge_response.go: the non-streaming response and its usage -/

/-- oai.Usage. -/
structure OUsage where
  promptTokens : Int
  completionTokens : Int
  totalTokens : Int
deriving Repr, DecidableEq

/-- usageFromResult (bridge_response.go lines 89-95), with TotalTokens kept
as the four-term sum the Go code writes. -/
def usageFromResult (u : Ccwire.WUsage) : OUsage :=
  { promptTokens := u.inputTokens + u.cacheReadInputTokens + u.cacheCreationInputTokens,
    completionTokens := u.outputTokens,
    totalTokens :=
      u.inputTokens + u.cacheReadInputTokens + u.cacheCreationInputTokens + u.outputTokens }

/-- extractText (bridge_response.go lines 68-76): the concatenation of the
text of every "text" content block. -/
def extractText (am : Ccwire.AssistantMessage) : String :=
  am.message.content.foldl (fun acc b => if b.type = "text" then acc ++ b.text else acc) ""

/-- modelFromResult (bridge_response.go lines 78-87): the assistant's model
when present, else a key of the per-model usage map (Go map iteration order
is unspecified; the model takes the first binding), else "unknown". -/
def modelFromResult (result : Ccwire.ResultMessage)
    (assistant : Option Ccwire.AssistantMessage) : String :=
  match assistant with
  | some am =>
    if am.message.model ≠ "" then am.message.model
    else
      match result.modelUsage with
      | (k, _) :: _ => k
      | [] => "unknown"
  | none =>
    match result.modelUsage with
    | (k, _) :: _ => k
    | [] => "unknown"

/-- oai.ChatCompletionResponse restricted to one choice, without the
wall-clock Created field. -/
structure MResponse where
  id : String
  model : String
  content : Option String
  toolCalls : List ToolCall
  finishReason : String
  usage : OUsage

/-- ResultToResponse (bridge_response.go lines 21-66). -/
def resultToResponse (gen : Nat → Option String) (result : Ccwire.ResultMessage)
    (assistant : Option Ccwire.AssistantMessage) (hasTools : Bool) : MResponse :=
  let text : String :=
    match assistant with
    | some am => extractText am
    | none => result.result
  let base : MResponse :=
    { id := "chatcmpl-" ++ result.sessionID,
      model := modelFromResult result assistant,
      content := none,
      toolCalls := [],
      finishReason := "stop",
      usage := usageFromResult result.usage }
  if hasTools then
    let p := parseToolCalls gen text.toList
    let base :=
      if p.2.length > 0 then { base with toolCalls := p.2, finishReason := "tool_calls" }
      else base
    if p.1 ≠ [] then { base with content := some (String.mk p.1) } else base
  else
    { base with content := some text }

end Oai

end CCSdk

/-! ## Theorems -/

namespace CCSdk

theorem hasInfix_iff_isInfix (needle hay : List Char) :
    hasInfix needle hay = true ↔ needle <:+: hay := by
  induction hay with
  | nil =>
    simp only [hasInfix, findSub, List.isEmpty_iff]
    constructor
    · intro h
      by_cases hn : needle = []
      · simp [hn]
      · simp [hn] at h
    · intro h
      have := List.eq_nil_of_infix_nil h
      simp [this]
  | cons c rest ih =>
    simp only [hasInfix, findSub] at *
    constructor
    · intro h
      by_cases hp : needle.isPrefixOf (c :: rest)
      · exact (List.IsPrefix.isInfix (List.isPrefixOf_iff_prefix.mp hp))
      · simp [hp, Option.isSome_map] at h
        exact (List.infix_cons_iff).mpr (Or.inr (ih.mp h))
    · intro h
      by_cases hp : needle.isPrefixOf (c :: rest)
      · simp [hp]
      · rcases (List.infix_cons_iff).mp h with h1 | h2
        · exact absurd (List.isPrefixOf_iff_prefix.mpr h1) (by simpa using hp)
        · simp [hp, Option.isSome_map]
          exact ih.mpr h2

namespace Oai

theorem textDeltaChunk_eq_buffering (ss : StreamState) (t : List Char)
    (hT : ss.hasTools = true) (hB : ss.buffering = true) :
    ss.textDeltaChunk t = ({ ss with buffer := ss.buffer ++ t }, none) := by
  simp [StreamState.textDeltaChunk, hT, hB]

theorem textDeltaChunk_eq_detect (ss : StreamState) (t : List Char)
    (hT : ss.hasTools = true) (hB : ss.buffering = false)
    (hS : CCSdk.hasInfix tagSentinel (ss.buffer ++ t) = true) :
    ss.textDeltaChunk t = ({ ss with buffer := ss.buffer ++ t, buffering := true }, none) := by
  simp [StreamState.textDeltaChunk, hT, hB, hS]

theorem textDeltaChunk_eq_hold (ss : StreamState) (t : List Char)
    (hT : ss.hasTools = true) (hB : ss.buffering = false)
    (hS : CCSdk.hasInfix tagSentinel (ss.buffer ++ t) = false)
    (hSafe : (ss.buffer ++ t).length - tagMaxPrefix ≤ ss.emitted) :
    ss.textDeltaChunk t = ({ ss with buffer := ss.buffer ++ t }, none) := by
  have h' := hSafe
  simp only [List.length_append] at h'
  simp [StreamState.textDeltaChunk, hT, hB, hS]
  omega

theorem textDeltaChunk_eq_emit (ss : StreamState) (t : List Char)
    (hT : ss.hasTools = true) (hB : ss.buffering = false)
    (hS : CCSdk.hasInfix tagSentinel (ss.buffer ++ t) = false)
    (hSafe : ¬ (ss.buffer ++ t).length - tagMaxPrefix ≤ ss.emitted) :
    ss.textDeltaChunk t =
      ({ ss with buffer := ss.buffer ++ t,
                 emitted := (ss.buffer ++ t).length - tagMaxPrefix },
       some (makeContentChunk
         (((ss.buffer ++ t).take ((ss.buffer ++ t).length - tagMaxPrefix)).drop ss.emitted))) := by
  have h' := hSafe
  simp only [List.length_append] at h'
  simp [StreamState.textDeltaChunk, hT, hB, hS]
  omega

theorem textDeltaChunk_inv (ss : StreamState) (t : List Char)
    (hT : ss.hasTools = true)
    (hE : ss.emitted ≤ ss.buffer.length)
    (hP : ¬ tagSentinel <:+: ss.buffer.take ss.emitted)
    (hJ : ss.emitted = 0 ∨ ss.emitted + tagMaxPrefix ≤ ss.buffer.length) :
    (ss.textDeltaChunk t).1.hasTools = true ∧
    (ss.textDeltaChunk t).1.emitted ≤ (ss.textDeltaChunk t).1.buffer.length ∧
    (ss.textDeltaChunk t).1.buffer.take (ss.textDeltaChunk t).1.emitted =
      ss.buffer.take ss.emitted ++ contentOf (ss.textDeltaChunk t).2 ∧
    ¬ tagSentinel <:+: (ss.textDeltaChunk t).1.buffer.take (ss.textDeltaChunk t).1.emitted ∧
    ((ss.textDeltaChunk t).1.emitted = 0 ∨
      (ss.textDeltaChunk t).1.emitted + tagMaxPrefix ≤ (ss.textDeltaChunk t).1.buffer.length) := by
  have hlen : ss.buffer.length ≤ (ss.buffer ++ t).length := by
    simp
  have htake : (ss.buffer ++ t).take ss.emitted = ss.buffer.take ss.emitted :=
    List.take_append_of_le_length hE
  have hJ' : ss.emitted = 0 ∨ ss.emitted + tagMaxPrefix ≤ (ss.buffer ++ t).length := by
    rcases hJ with h | h
    · exact Or.inl h
    · exact Or.inr (le_trans h hlen)
  by_cases hB : ss.buffering = true
  · rw [textDeltaChunk_eq_buffering ss t hT hB]
    exact ⟨hT, le_trans hE hlen, by simp [htake, contentOf], by simpa [htake] using hP, hJ'⟩
  · replace hB : ss.buffering = false := by simpa using hB
    by_cases hS : CCSdk.hasInfix tagSentinel (ss.buffer ++ t) = true
    · rw [textDeltaChunk_eq_detect ss t hT hB hS]
      exact ⟨hT, le_trans hE hlen, by simp [htake, contentOf], by simpa [htake] using hP, hJ'⟩
    · replace hS : CCSdk.hasInfix tagSentinel (ss.buffer ++ t) = false := by simpa using hS
      by_cases hSafe : (ss.buffer ++ t).length - tagMaxPrefix ≤ ss.emitted
      · rw [textDeltaChunk_eq_hold ss t hT hB hS hSafe]
        exact ⟨hT, le_trans hE hlen, by simp [htake, contentOf], by simpa [htake] using hP, hJ'⟩
      · rw [textDeltaChunk_eq_emit ss t hT hB hS hSafe]
        push_neg at hSafe
        have hle : ss.emitted ≤ (ss.buffer ++ t).length - tagMaxPrefix :=
          le_of_lt hSafe
        have hNoInf : ¬ tagSentinel <:+: (ss.buffer ++ t) := by
          intro h
          rw [(hasInfix_iff_isInfix tagSentinel (ss.buffer ++ t)).mpr h] at hS
          exact Bool.true_eq_false.mp hS
        refine ⟨hT, Nat.sub_le _ _, ?_, ?_, ?_⟩
        · -- the emitted prefix grows by exactly the new content slice
          have h1 : ((ss.buffer ++ t).take ((ss.buffer ++ t).length - tagMaxPrefix)).take ss.emitted
              = ss.buffer.take ss.emitted := by
            rw [List.take_take, min_eq_left hle, htake]
          show (ss.buffer ++ t).take ((ss.buffer ++ t).length - tagMaxPrefix) = _
          conv_lhs =>
            rw [← List.take_append_drop ss.emitted
              ((ss.buffer ++ t).take ((ss.buffer ++ t).length - tagMaxPrefix))]
          rw [h1]
          simp [contentOf, makeContentChunk]
        · show ¬ tagSentinel <:+: (ss.buffer ++ t).take ((ss.buffer ++ t).length - tagMaxPrefix)
          intro h
          exact hNoInf (h.trans (List.take_prefix _ _).isInfix)
        · right
          show (ss.buffer ++ t).length - tagMaxPrefix + tagMaxPrefix ≤ (ss.buffer ++ t).length
          have hpos : 0 < (ss.buffer ++ t).length - tagMaxPrefix :=
            Nat.lt_of_le_of_lt (Nat.zero_le _) hSafe
          have h11 : tagMaxPrefix ≤ (ss.buffer ++ t).length :=
            le_of_lt (Nat.lt_of_sub_pos hpos)
          rw [Nat.sub_add_cancel h11]

theorem runDeltas_inv (ts : List (List Char)) (ss : StreamState)
    (hT : ss.hasTools = true)
    (hE : ss.emitted ≤ ss.buffer.length)
    (hP : ¬ tagSentinel <:+: ss.buffer.take ss.emitted)
    (hJ : ss.emitted = 0 ∨ ss.emitted + tagMaxPrefix ≤ ss.buffer.length) :
    (ss.runDeltas ts).1.buffer.take (ss.runDeltas ts).1.emitted =
      ss.buffer.take ss.emitted ++ (ss.runDeltas ts).2 ∧
    ¬ tagSentinel <:+: (ss.runDeltas ts).1.buffer.take (ss.runDeltas ts).1.emitted ∧
    ((ss.runDeltas ts).1.emitted = 0 ∨
      (ss.runDeltas ts).1.emitted + tagMaxPrefix ≤ (ss.runDeltas ts).1.buffer.length) := by
  induction ts generalizing ss with
  | nil =>
    simp only [StreamState.runDeltas]
    exact ⟨by simp, hP, hJ⟩
  | cons t ts ih =>
    obtain ⟨hT', hE', hEq, hP', hJ'⟩ := textDeltaChunk_inv ss t hT hE hP hJ
    simp only [StreamState.runDeltas]
    rcases hc : ss.textDeltaChunk t with ⟨ss', oc⟩
    rw [hc] at hT' hE' hEq hP' hJ'
    cases oc with
    | none =>
      obtain ⟨ih1, ih2, ih3⟩ := ih ss' hT' hE' hP' hJ'
      refine ⟨?_, ih2, ih3⟩
      rw [ih1, hEq]
      simp [contentOf]
    | some c =>
      obtain ⟨ih1, ih2, ih3⟩ := ih ss' hT' hE' hP' hJ'
      refine ⟨?_, ih2, ih3⟩
      rw [ih1, hEq]
      simp [contentOf]

/-- C1: for every tool-enabled streaming run and every sequence of text
fragments fed to TextDeltaChunk, the substring "<tool_call" never occurs in
the concatenation of the content strings of all chunks emitted before the
terminal chunk, and the emitted cursor never reaches within tagMaxPrefix
bytes of the end of the buffer (no byte at or after position
buffer length minus 11 is ever emitted before FinishChunk runs). -/
theorem toolCallTag_never_leaks_before_finish (fragments : List (List Char)) :
    ¬ tagSentinel <:+: ((StreamState.new true).runDeltas fragments).2 ∧
    (((StreamState.new true).runDeltas fragments).1.emitted = 0 ∨
      ((StreamState.new true).runDeltas fragments).1.emitted + tagMaxPrefix ≤
        ((StreamState.new true).runDeltas fragments).1.buffer.length) := by
  have h0T : (StreamState.new true).hasTools = true := rfl
  have h0E : (StreamState.new true).emitted ≤ (StreamState.new true).buffer.length := by
    simp [StreamState.new]
  have h0P : ¬ tagSentinel <:+:
      (StreamState.new true).buffer.take (StreamState.new true).emitted := by
    intro h
    have := List.eq_nil_of_infix_nil (by simpa [StreamState.new] using h)
    simp [tagSentinel] at this
  have h0J : (StreamState.new true).emitted = 0 ∨
      (StreamState.new true).emitted + tagMaxPrefix ≤ (StreamState.new true).buffer.length :=
    Or.inl rfl
  obtain ⟨hEq, hNoInf, hJ⟩ := runDeltas_inv fragments (StreamState.new true) h0T h0E h0P h0J
  refine ⟨?_, hJ⟩
  intro h
  apply hNoInf
  rw [hEq]
  have : ((StreamState.new true).runDeltas fragments).2 <:+:
      (StreamState.new true).buffer.take (StreamState.new true).emitted ++
        ((StreamState.new true).runDeltas fragments).2 :=
    (List.suffix_append _ _).isInfix
  exact h.trans this

theorem findSub_some_decomp (needle : List Char) :
    ∀ (hay : List Char) (i : Nat), findSub needle hay = some i →
      hay = hay.take i ++ needle ++ hay.drop (i + needle.length) := by
  intro hay
  induction hay with
  | nil =>
    intro i h
    simp only [findSub] at h
    by_cases hn : needle.isEmpty
    · simp only [hn, if_true, Option.some.injEq] at h
      subst h
      simp [List.isEmpty_iff.mp hn]
    · simp [hn] at h
  | cons c rest ih =>
    intro i h
    simp only [findSub] at h
    by_cases hp : needle.isPrefixOf (c :: rest)
    · simp only [hp, if_true, Option.some.injEq] at h
      subst h
      obtain ⟨t, ht⟩ := List.isPrefixOf_iff_prefix.mp hp
      simp only [List.take_zero, List.nil_append, Nat.zero_add]
      rw [← ht, List.drop_left]
    · simp only [hp, if_false] at h
      rcases hfr : findSub needle rest with _ | i'
      · rw [hfr] at h
        simp at h
      · rw [hfr] at h
        simp only [Option.map_some'] at h
        have hii : i' + 1 = i := by
          injection h
        subst hii
        have := ih i' hfr
        calc c :: rest
                = c :: (rest.take i' ++ needle ++ rest.drop (i' + needle.length)) := by rw [← this]
              _ = (c :: rest).take (i' + 1) ++ needle ++ (c :: rest).drop (i' + 1 + needle.length) := by
                    simp only [List.take_succ_cons, List.cons_append]
                    rw [show i' + 1 + needle.length = (i' + needle.length) + 1 by omega]
                    simp [List.drop_succ_cons]

theorem toolCallMatches_rebuild :
    ∀ (fuel : Nat) (text : List Char),
      rebuildSegs (toolCallMatches fuel text).1 ++ (toolCallMatches fuel text).2 = text := by
  intro fuel
  induction fuel with
  | zero => intro text; simp [toolCallMatches, rebuildSegs]
  | succ fuel ih =>
    intro text
    rcases hopen : findSub openTag text with _ | i
    · simp [toolCallMatches, hopen, rebuildSegs]
    · rcases hclose : findSub closeTag (text.drop (i + openTag.length)) with _ | j
      · simp [toolCallMatches, hopen, hclose, rebuildSegs]
      · have h1 := findSub_some_decomp openTag text i hopen
        have h2 := findSub_some_decomp closeTag (text.drop (i + openTag.length)) j hclose
        have h3 := ih ((text.drop (i + openTag.length)).drop (j + closeTag.length))
        have h2' : (text.drop (i + openTag.length)).take j ++
            (closeTag ++ ((text.drop (i + openTag.length)).drop (j + closeTag.length))) =
            text.drop (i + openTag.length) := by
          conv_rhs => rw [h2]
          simp [List.append_assoc]
        have h1' : text.take i ++ (openTag ++ text.drop (i + openTag.length)) = text := by
          conv_rhs => rw [h1]
          simp [List.append_assoc]
        simp only [toolCallMatches, hopen, hclose, rebuildSegs, List.append_assoc]
        rw [h3, h2', h1']

theorem parseSegs_all_fail (gen : Nat → Option String) :
    ∀ (segs : List (List Char × List Char)) (k : Nat),
      (∀ seg ∈ segs, decodePayload seg.2 = none) →
      parseSegs gen k segs = (rebuildSegs segs, []) := by
  intro segs
  induction segs with
  | nil => intro k _; rfl
  | cons seg rest ih =>
    intro k hall
    obtain ⟨pre, inner⟩ := seg
    have hseg : decodePayload inner = none := hall (pre, inner) (by simp)
    simp only [parseSegs, hseg]
    rw [ih k (fun s hs => hall s (List.mem_cons_of_mem _ hs))]
    simp [rebuildSegs]

theorem parseSegs_calls_length (gen : Nat → Option String) :
    ∀ (segs : List (List Char × List Char)) (k : Nat),
      (parseSegs gen k segs).2.length =
        (segs.filter (fun seg => (decodePayload seg.2).isSome)).length := by
  intro segs
  induction segs with
  | nil => intro k; rfl
  | cons seg rest ih =>
    intro k
    obtain ⟨pre, inner⟩ := seg
    simp only [parseSegs]
    rcases hd : decodePayload inner with _ | p
    · simpa [List.filter_cons, hd] using ih k
    · simp only [List.filter_cons]
      simp only [hd, Option.isSome_some, if_true]
      simp [ih (k + 1)]

theorem parseSegs_keeps_failing_tag (gen : Nat → Option String) :
    ∀ (segs : List (List Char × List Char)) (k : Nat) (seg : List Char × List Char),
      seg ∈ segs → decodePayload seg.2 = none →
      (openTag ++ seg.2 ++ closeTag) <:+: (parseSegs gen k segs).1 := by
  intro segs
  induction segs with
  | nil => intro k seg h; simp at h
  | cons hd rest ih =>
    intro k seg hmem hfail
    obtain ⟨pre, inner⟩ := hd
    rcases List.mem_cons.mp hmem with heq | hmem'
    · subst heq
      simp only [parseSegs, hfail]
      refine ⟨pre, (parseSegs gen k rest).1, ?_⟩
      simp
    · simp only [parseSegs]
      rcases hdp : decodePayload inner with _ | p
      · have := ih k seg hmem' hfail
        refine this.trans ?_
        refine ⟨pre ++ openTag ++ inner ++ closeTag, [], ?_⟩
        simp
      · have := ih (k + 1) seg hmem' hfail
        refine this.trans ?_
        exact ⟨pre, [], by simp⟩

theorem infix_dropWhile_of_head (p : Char → Bool) (t : List Char)
    (hhd : ∃ c r, t = c :: r ∧ p c = false) :
    ∀ l : List Char, t <:+: l → t <:+: l.dropWhile p := by
  intro l
  induction l with
  | nil =>
    intro h
    obtain ⟨c, r, hcr, _⟩ := hhd
    have := List.eq_nil_of_infix_nil h
    rw [hcr] at this
    cases this
  | cons x xs ih =>
    intro h
    by_cases hx : p x = true
    · rw [List.dropWhile_cons_of_pos hx]
      rcases List.infix_cons_iff.mp h with hpre | hinf
      · obtain ⟨c, r, hcr, hc⟩ := hhd
        rw [hcr] at hpre
        have hcx : c = x := by
          obtain ⟨w, hw⟩ := hpre
          injection hw with h1 _
        rw [hcx] at hc
        rw [hx] at hc
        cases hc
      · exact ih hinf
    · rw [List.dropWhile_cons_of_neg (by simpa using hx)]
      exact h

theorem infix_trimSpace (t : List Char)
    (hhd : ∃ c r, t = c :: r ∧ goIsSpace c = false)
    (hlast : ∃ c r, t = r ++ [c] ∧ goIsSpace c = false) :
    ∀ l : List Char, t <:+: l → t <:+: trimSpace l := by
  intro l h
  have hA := infix_dropWhile_of_head goIsSpace t hhd l h
  have hrev : t.reverse <:+: (l.dropWhile goIsSpace).reverse :=
    List.reverse_infix.mpr hA
  have hhd' : ∃ c r, t.reverse = c :: r ∧ goIsSpace c = false := by
    obtain ⟨c, r, hcr, hc⟩ := hlast
    exact ⟨c, r.reverse, by rw [hcr]; simp, hc⟩
  have hB := infix_dropWhile_of_head goIsSpace t.reverse hhd' _ hrev
  have := List.reverse_infix.mpr hB
  simpa [trimSpace] using this

theorem parseToolCalls_all_fail (gen : Nat → Option String) (text : List Char)
    (hne : (toolCallMatches text.length text).1 ≠ [])
    (hall : ∀ seg ∈ (toolCallMatches text.length text).1, decodePayload seg.2 = none) :
    parseToolCalls gen text = (trimSpace text, []) := by
  have hre := toolCallMatches_rebuild text.length text
  simp only [parseToolCalls]
  rcases hm : toolCallMatches text.length text with ⟨segs, tail⟩
  rw [hm] at hne hall hre
  simp only at hne hall hre
  rcases segs with _ | ⟨s0, srest⟩
  · exact absurd rfl hne
  · simp only
    rw [parseSegs_all_fail gen (s0 :: srest) 0 hall]
    rw [hre]

/-- C3: a tool-call tag whose payload does not decode as JSON of the shape
expected by ParseToolCalls is left verbatim in the cleaned text and
contributes no tool call: when every matched tag fails to decode the cleaned
text is the whole input (trimmed, per the code path taken once a match
exists); every failing tag survives as a substring of the cleaned text; the
number of returned calls is the number of decodable tags; and on the single
input "<tool_call>not valid json</tool_call>" the function returns the input
unchanged with zero calls. -/
theorem malformed_tool_call_tags_survive (gen : Nat → Option String) :
    (∀ text : List Char,
        (toolCallMatches text.length text).1 ≠ [] →
        (∀ seg ∈ (toolCallMatches text.length text).1, decodePayload seg.2 = none) →
        parseToolCalls gen text = (trimSpace text, [])) ∧
    (∀ (text : List Char) (seg : List Char × List Char),
        seg ∈ (toolCallMatches text.length text).1 → decodePayload seg.2 = none →
        (openTag ++ seg.2 ++ closeTag) <:+: (parseToolCalls gen text).1) ∧
    (∀ text : List Char,
        (parseToolCalls gen text).2.length =
          ((toolCallMatches text.length text).1.filter
            (fun seg => (decodePayload seg.2).isSome)).length) ∧
    parseToolCalls gen "<tool_call>not valid json</tool_call>".toList =
      ("<tool_call>not valid json</tool_call>".toList, []) := by
  refine ⟨parseToolCalls_all_fail gen, ?_, ?_, ?_⟩
  · intro text seg hmem hfail
    simp only [parseToolCalls]
    rcases hm : toolCallMatches text.length text with ⟨segs, tail⟩
    rw [hm] at hmem
    simp only at hmem
    rcases segs with _ | ⟨s0, srest⟩
    · simp at hmem
    · simp only
      have htag := parseSegs_keeps_failing_tag gen (s0 :: srest) 0 seg hmem hfail
      have htag2 : (openTag ++ seg.2 ++ closeTag) <:+:
          (parseSegs gen 0 (s0 :: srest)).1 ++ tail :=
        htag.trans (List.prefix_append _ _).isInfix
      refine infix_trimSpace _ ?_ ?_ _ htag2
      · exact ⟨'<', "tool_call>".toList ++ seg.2 ++ closeTag, by simp [openTag, closeTag], by decide⟩
      · refine ⟨'>', openTag ++ seg.2 ++ "</tool_call".toList, ?_, by decide⟩
        show openTag ++ seg.2 ++ closeTag = _
        rw [show closeTag = "</tool_call".toList ++ ['>'] by decide]
        simp [List.append_assoc]
  · intro text
    simp only [parseToolCalls]
    rcases hm : toolCallMatches text.length text with ⟨segs, tail⟩
    simp only
    rcases segs with _ | ⟨s0, srest⟩
    · simp
    · simp only
      exact parseSegs_calls_length gen (s0 :: srest) 0
  · rw [parseToolCalls_all_fail gen _ (by decide) (by decide)]
    decide

/-- C3 witness: the theorem applied at a concrete malformed-tag input. -/
theorem malformed_tool_call_tags_survive_witness :
    parseToolCalls (fun _ => none) " x <tool_call>oops</tool_call>".toList =
      ("x <tool_call>oops</tool_call>".toList, []) := by
  have h := (malformed_tool_call_tags_survive (fun _ => none)).1
    " x <tool_call>oops</tool_call>".toList (by decide) (by decide)
  rw [h]
  decide

/-- C10: when the text contains no complete tool-call tag, ParseToolCalls
returns the input exactly as given, whitespace included, with no calls. -/
theorem no_match_returns_input_verbatim (gen : Nat → Option String) (text : List Char)
    (h : (toolCallMatches text.length text).1 = []) :
    parseToolCalls gen text = (text, []) := by
  simp only [parseToolCalls]
  rcases hm : toolCallMatches text.length text with ⟨segs, tail⟩
  rw [hm] at h
  simp only at h
  subst h
  rfl

/-- C10 witness: an input with surrounding whitespace and no tag is returned
untrimmed. -/
theorem no_match_returns_input_verbatim_witness :
    parseToolCalls (fun _ => none) "  hello <tool_call> unclosed  ".toList =
      ("  hello <tool_call> unclosed  ".toList, []) :=
  no_match_returns_input_verbatim (fun _ => none) _ (by decide)

theorem callPrefix_inj (a b : String) (h : "call_" ++ a = "call_" ++ b) : a = b := by
  obtain ⟨la⟩ := a
  obtain ⟨lb⟩ := b
  have hd : "call_".data ++ la = "call_".data ++ lb := congrArg String.data h
  have := List.append_cancel_left hd
  simp [this]

theorem parseSegs_call_shape (gen : Nat → Option String) :
    ∀ (segs : List (List Char × List Char)) (k : Nat),
      ∀ c ∈ (parseSegs gen k segs).2,
        c.type = "function" ∧ ∃ j, k ≤ j ∧ c.id = "call_" ++ tokenOf gen j := by
  intro segs
  induction segs with
  | nil => intro k c hc; simp [parseSegs] at hc
  | cons seg rest ih =>
    intro k c hc
    obtain ⟨pre, inner⟩ := seg
    simp only [parseSegs] at hc
    rcases hd : decodePayload inner with _ | p
    · simp only [hd] at hc
      exact ih k c hc
    · simp only [hd] at hc
      rcases List.mem_cons.mp hc with heq | hmem
      · subst heq
        refine ⟨rfl, k, le_refl k, ?_⟩
        simp [tokenOf]
      · obtain ⟨hty, j, hkj, hid⟩ := ih (k + 1) c hmem
        exact ⟨hty, j, by omega, hid⟩

theorem parseSegs_ids_pairwise (gen : Nat → Option String)
    (hdist : ∀ j k : Nat, j ≠ k → tokenOf gen j ≠ tokenOf gen k) :
    ∀ (segs : List (List Char × List Char)) (k : Nat),
      ((parseSegs gen k segs).2.map ToolCall.id).Pairwise (· ≠ ·) := by
  intro segs
  induction segs with
  | nil => intro k; simp [parseSegs]
  | cons seg rest ih =>
    intro k
    obtain ⟨pre, inner⟩ := seg
    simp only [parseSegs]
    rcases hd : decodePayload inner with _ | p
    · exact ih k
    · simp only [List.map_cons]
      refine List.Pairwise.cons ?_ (ih (k + 1))
      intro idStr hmem hEq
      rcases List.mem_map.mp hmem with ⟨c, hc, hcid⟩
      obtain ⟨_, j, hkj, hid⟩ := parseSegs_call_shape gen rest (k + 1) c hc
      rw [← hcid, hid] at hEq
      have htok : tokenOf gen k = tokenOf gen j := by
        apply callPrefix_inj
        have : ("call_" ++ match gen k with | some s => s | none => Nat.repr k) =
            "call_" ++ tokenOf gen k := by
          simp [tokenOf]
        rw [this] at hEq
        exact hEq
      exact hdist k j (by omega) htok

/-- C4: whenever ParseToolCalls returns tool calls, every call has type
"function" and an id of the form call_ followed by a non-empty token over
A-Za-z0-9 underscore hyphen, and the ids within the result are pairwise
distinct.  The generator hypotheses state the contract of the gonanoid
library the code delegates id generation to: every draw succeeds, yields a
non-empty token over the URL-safe alphabet, and distinct draws differ. -/
theorem toolCall_ids_wellformed (gen : Nat → Option String)
    (halpha : ∀ k s, gen k = some s → s.toList ≠ [] ∧ ∀ ch ∈ s.toList, isIdChar ch = true)
    (hsome : ∀ k, (gen k).isSome = true)
    (hdist : ∀ j k : Nat, j ≠ k → gen j ≠ gen k)
    (text : List Char) :
    (∀ c ∈ (parseToolCalls gen text).2,
        c.type = "function" ∧
        ∃ t : String, c.id = "call_" ++ t ∧ t.toList ≠ [] ∧
          ∀ ch ∈ t.toList, isIdChar ch = true) ∧
    ((parseToolCalls gen text).2.map ToolCall.id).Pairwise (· ≠ ·) := by
  have htok : ∀ k, ∃ s, gen k = some s ∧ tokenOf gen k = s := by
    intro k
    rcases hg : gen k with _ | s
    · have h := hsome k
      rw [hg] at h
      simp at h
    · exact ⟨s, rfl, by simp [tokenOf, hg]⟩
  have hdist' : ∀ j k : Nat, j ≠ k → tokenOf gen j ≠ tokenOf gen k := by
    intro j k hjk hEq
    obtain ⟨sj, hgj, htj⟩ := htok j
    obtain ⟨sk, hgk, htk⟩ := htok k
    apply hdist j k hjk
    rw [hgj, hgk, ← htj, ← htk, hEq]
  constructor
  · intro c hc
    have hcalls : c ∈ (parseToolCalls gen text).2 := hc
    simp only [parseToolCalls] at hcalls
    rcases hm : toolCallMatches text.length text with ⟨segs, tail⟩
    rw [hm] at hcalls
    simp only at hcalls
    rcases segs with _ | ⟨s0, srest⟩
    · simp at hcalls
    · simp only at hcalls
      obtain ⟨hty, j, _, hid⟩ := parseSegs_call_shape gen (s0 :: srest) 0 c hcalls
      obtain ⟨s, hgs, hts⟩ := htok j
      obtain ⟨hne, hal⟩ := halpha j s hgs
      exact ⟨hty, s, by rw [hid, hts], hne, hal⟩
  · simp only [parseToolCalls]
    rcases hm : toolCallMatches text.length text with ⟨segs, tail⟩
    simp only
    rcases segs with _ | ⟨s0, srest⟩
    · simp
    · simp only
      exact parseSegs_ids_pairwise gen hdist' (s0 :: srest) 0

/-- C4 witness: the theorem instantiated at a concrete two-tag input with a
concrete conforming generator. -/
theorem toolCall_ids_wellformed_witness :
    (∀ c ∈ (parseToolCalls genWitness
        "<tool_call>\x7b\"name\":\"t1\",\"arguments\":\x7b\x7d\x7d</tool_call><tool_call>\x7b\"name\":\"t2\",\"arguments\":\x7b\x7d\x7d</tool_call>".toList).2,
        c.type = "function" ∧
        ∃ t : String, c.id = "call_" ++ t ∧ t.toList ≠ [] ∧
          ∀ ch ∈ t.toList, isIdChar ch = true) ∧
    ((parseToolCalls genWitness
        "<tool_call>\x7b\"name\":\"t1\",\"arguments\":\x7b\x7d\x7d</tool_call><tool_call>\x7b\"name\":\"t2\",\"arguments\":\x7b\x7d\x7d</tool_call>".toList).2.map
      ToolCall.id).Pairwise (· ≠ ·) := by
  apply toolCall_ids_wellformed genWitness
  · intro k s h
    have hs : s = String.mk (List.replicate (k + 1) 'a') := by
      injection h with h'
      exact h'.symm
    subst hs
    constructor
    · simp
    · intro ch hch
      have : ch = 'a' := List.eq_of_mem_replicate (by exact hch)
      subst this
      decide
  · intro k
    rfl
  · intro j k hjk hEq
    apply hjk
    have h1 : String.mk (List.replicate (j + 1) 'a') = String.mk (List.replicate (k + 1) 'a') := by
      injection hEq
    have h2 : List.replicate (j + 1) 'a' = List.replicate (k + 1) 'a' := by
      injection h1
    have := congrArg List.length h2
    simpa using this

end Oai

namespace Ccwire

theorem envelopeType_nil : envelopeType [] = none := by decide

theorem parseTyped_unrecognized (typ : String) (line : List Char)
    (h : typ ∉ recognizedTypes) : parseTyped typ line = .ok none := by
  simp only [recognizedTypes, List.mem_cons, List.mem_singleton, not_or] at h
  obtain ⟨h1, h2, h3, h4, _⟩ := h
  simp [parseTyped, h1, h2, h3, h4]

theorem parseTyped_error_iff (typ : String) (line : List Char)
    (h : typ ∈ recognizedTypes) :
    (parseTyped typ line = .error typ ↔ variantDecode typ line = none) := by
  simp only [recognizedTypes, List.mem_cons, List.mem_singleton] at h
  rcases h with h | h | h | h | h
  · subst h
    rcases hd : (parseTop line).bind decodeSystem with _ | m <;>
      simp [parseTyped, variantDecode, hd]
  · subst h
    rcases hd : (parseTop line).bind decodeAssistant with _ | m <;>
      simp [parseTyped, variantDecode, hd]
  · subst h
    rcases hd : (parseTop line).bind decodeResult with _ | m <;>
      simp [parseTyped, variantDecode, hd]
  · subst h
    rcases hd : (parseTop line).bind decodeStreamEvent with _ | m <;>
      simp [parseTyped, variantDecode, hd]
  · simp at h

/-- C5: the parser's skip/error discipline.  A record whose envelope decodes
to an unrecognized type is silently skipped (Next behaves as if the record
were absent); a record whose envelope decode fails is likewise skipped; a
record with a recognized type whose payload fails the variant-schema decode
makes Next return an error carrying that type, which is neither EOF nor a
skip. -/
theorem parser_skip_and_error_discipline :
    (∀ (line : List Char) (rest : List (List Char)) (t : String),
        envelopeType line = some t → t ∉ recognizedTypes →
        parserNext (line :: rest) = parserNext rest) ∧
    (∀ (line : List Char) (rest : List (List Char)),
        envelopeType line = none →
        parserNext (line :: rest) = parserNext rest) ∧
    (∀ (line : List Char) (rest : List (List Char)) (t : String),
        envelopeType line = some t → t ∈ recognizedTypes →
        variantDecode t line = none →
        parserNext (line :: rest) = .fail t ∧
        parserNext (line :: rest) ≠ .eof ∧
        ∀ m r, parserNext (line :: rest) ≠ .message m r) := by
  have hne : ∀ (line : List Char) (t : String),
      envelopeType line = some t → line.isEmpty = false := by
    intro line t h
    rcases line with _ | ⟨c, cs⟩
    · rw [envelopeType_nil] at h
      cases h
    · rfl
  refine ⟨?_, ?_, ?_⟩
  · intro line rest t hEnv hUnrec
    simp only [parserNext, hne line t hEnv, Bool.false_eq_true, if_false, hEnv]
    rw [parseTyped_unrecognized t line hUnrec]
  · intro line rest hEnv
    by_cases hE : line.isEmpty
    · simp [parserNext, hE]
    · simp only [parserNext, hEnv]
      simp [hE]
  · intro line rest t hEnv hRec hBad
    have hfail : parseTyped t line = .error t :=
      (parseTyped_error_iff t line hRec).mpr hBad
    have heq : parserNext (line :: rest) = .fail t := by
      simp only [parserNext, hne line t hEnv, Bool.false_eq_true, if_false, hEnv]
      rw [hfail]
    refine ⟨heq, ?_, ?_⟩
    · rw [heq]
      intro hc
      cases hc
    · intro m r
      rw [heq]
      intro hc
      cases hc

/-- C5 witness: a malformed result payload errors; an unknown type and a
non-JSON garbage line are both skipped through to EOF. -/
theorem parser_skip_and_error_discipline_witness :
    parserNext ["\x7b\"type\":\"result\",\"usage\":5\x7d".toList] = .fail "result" ∧
    parserNext ["\x7b\"type\":\"compact_boundary\"\x7d".toList] = .eof ∧
    parserNext ["not json at all".toList] = .eof := by
  refine ⟨?_, ?_, ?_⟩
  · exact (parser_skip_and_error_discipline.2.2
      "\x7b\"type\":\"result\",\"usage\":5\x7d".toList [] "result"
      (by decide) (by decide)
      (Option.isNone_iff_eq_none.mp (by decide))).1
  · rw [parser_skip_and_error_discipline.1
      "\x7b\"type\":\"compact_boundary\"\x7d".toList [] "compact_boundary"
      (by decide) (by decide)]
    rfl
  · rw [parser_skip_and_error_discipline.2.1 "not json at all".toList []
      (Option.isNone_iff_eq_none.mp (by decide))]
    rfl

end Ccwire

namespace Cchat

theorem closeIter_closed (k : Nat) (sem : Nat) :
    closeIter k ({ done := true, closedOnce := true }, sem) =
      ({ done := true, closedOnce := true }, sem) := by
  induction k with
  | zero => rfl
  | succ k ih =>
    simp only [closeIter, streamClose]
    exact ih

/-- C6: after a successful query, the first Close returns the semaphore to
its pre-query level, every further Close leaves it unchanged (so any K of at
least 1 closes restore the pre-query level, even when the stream was never
read), and every Close call returns nil. -/
theorem close_releases_exactly_once (pre k : Nat) (hk : 1 ≤ k) :
    (closeIter k ((querySem pre).2, (querySem pre).1)).2 = pre ∧
    (closeIter 1 ((querySem pre).2, (querySem pre).1)).2 = pre ∧
    (∀ p : CloseState × Nat, (streamClose p).2 = none) := by
  obtain ⟨j, hj⟩ : ∃ j, k = j + 1 := ⟨k - 1, by omega⟩
  subst hj
  refine ⟨?_, ?_, ?_⟩
  · simp only [closeIter, querySem, streamClose, if_neg, Bool.false_eq_true,
      not_false_eq_true, Nat.add_sub_cancel]
    rw [closeIter_closed]
  · simp [closeIter, querySem, streamClose]
  · intro p
    obtain ⟨s, sem⟩ := p
    simp only [streamClose]
    by_cases h : s.closedOnce <;> simp [h]

/-- C6 witness: three closes after a query from five occupied slots. -/
theorem close_releases_exactly_once_witness :
    (closeIter 3 ((querySem 5).2, (querySem 5).1)).2 = 5 :=
  (close_releases_exactly_once 5 3 (by decide)).1

/-- C7 counterexample: on an assistant record whose first text block is
empty while a later text block is non-empty, Next returns the literal
fallback "rate limit exceeded" -- not the first text block's text "" as the
claim's first clause demands, and not under the claim's fallback condition,
since a non-empty text block exists. -/
theorem rate_limit_first_block_counterexample :
    (streamNext { lines :=
      ["\x7b\"type\":\"assistant\",\"error\":\"rate_limit\",\"message\":\x7b\"content\":[\x7b\"type\":\"text\",\"text\":\"\"\x7d,\x7b\"type\":\"text\",\"text\":\"hi\"\x7d]\x7d\x7d".toList] }).2 =
      .rateLimit { message := "rate limit exceeded" } ∧
    (Ccwire.assistantOf (Ccwire.parserNext
      ["\x7b\"type\":\"assistant\",\"error\":\"rate_limit\",\"message\":\x7b\"content\":[\x7b\"type\":\"text\",\"text\":\"\"\x7d,\x7b\"type\":\"text\",\"text\":\"hi\"\x7d]\x7d\x7d".toList])).map
      (fun am => (am.error, firstTextBlockText am,
        am.message.content.any (fun b => b.type = "text" && !(b.text = "")))) =
      some ("rate_limit", "", true) := by
  constructor
  · rfl
  · rfl

/-- C7 (amended): whenever Next decodes an assistant message whose error
marker equals "rate_limit", it returns a RateLimitError whose message is the
text of the first content block of type "text" when that text is non-empty,
and the literal "rate limit exceeded" otherwise (first text block empty or
missing); no rate-limit error arises from any other condition, in particular
not when the marker is absent (decoded as the empty string). -/
theorem rate_limit_error_detection :
    (∀ (s : MStream) (am : Ccwire.AssistantMessage) (rest : List (List Char)),
        s.done = false →
        Ccwire.parserNext s.lines = .message (.assistant am) rest →
        (am.error = "rate_limit" →
          (streamNext s).2 = .rateLimit { message :=
            (if (firstTextBlockText am = "") then "rate limit exceeded"
             else firstTextBlockText am) }) ∧
        (am.error ≠ "rate_limit" →
          (streamNext s).2 = .message (.assistant am))) ∧
    (∀ (s : MStream) (e : RateLimitError),
        (streamNext s).2 = .rateLimit e →
        s.done = false ∧
        ∃ am rest, Ccwire.parserNext s.lines = .message (.assistant am) rest ∧
          am.error = "rate_limit" ∧
          e.message = (if (firstTextBlockText am = "") then "rate limit exceeded"
            else firstTextBlockText am)) := by
  constructor
  · intro s am rest hdone hmsg
    constructor
    · intro hrl
      simp only [streamNext, hdone, Bool.false_eq_true, if_false, hmsg, hrl, if_true]
    · intro hrl
      simp only [streamNext, hdone, Bool.false_eq_true, if_false, hmsg, hrl]
  · intro s e h
    simp only [streamNext] at h
    by_cases hdone : s.done = true
    · rw [if_pos hdone] at h
      simp at h
    · have hdone' : s.done = false := by simpa using hdone
      rw [if_neg (by simp [hdone'])] at h
      refine ⟨hdone', ?_⟩
      rcases hp : Ccwire.parserNext s.lines with _ | ⟨m, rest⟩ | t
      · rw [hp] at h
        by_cases hx : s.procExitCode ≠ 0
        · rw [if_pos hx] at h
          simp at h
        · rw [if_neg hx] at h
          simp at h
      · rw [hp] at h
        cases m with
        | assistant am =>
          by_cases hrl : am.error = "rate_limit"
          · simp only [hrl, if_true] at h
            refine ⟨am, rest, rfl, hrl, ?_⟩
            have := h.symm
            injection this with h'
            rw [h']
          · simp only [hrl, if_false] at h
            simp at h
        | system m => simp at h
        | result m => simp at h
        | streamEvent m => simp at h
      · rw [hp] at h
        simp at h

/-- C7 witness: the amended theorem applied to a concrete rate-limited
record with a non-empty first text block. -/
theorem rate_limit_error_detection_witness :
    (streamNext { lines :=
      ["\x7b\"type\":\"assistant\",\"error\":\"rate_limit\",\"message\":\x7b\"content\":[\x7b\"type\":\"text\",\"text\":\"slow down\"\x7d]\x7d\x7d".toList] }).2 =
      .rateLimit { message := "slow down" } := by
  have h := (rate_limit_error_detection.1
    { lines :=
      ["\x7b\"type\":\"assistant\",\"error\":\"rate_limit\",\"message\":\x7b\"content\":[\x7b\"type\":\"text\",\"text\":\"slow down\"\x7d]\x7d\x7d".toList] }
    { message := { content := [{ type := "text", text := "slow down" }] },
      error := "rate_limit" }
    [] rfl (by rfl)).1 rfl
  exact h.trans (by rfl)

end Cchat

namespace Oai

theorem textDeltaChunk_chunk_finishReason (ss : StreamState) (t : List Char) (c : Chunk)
    (h : (ss.textDeltaChunk t).2 = some c) : c.finishReason = none := by
  simp only [StreamState.textDeltaChunk] at h
  split at h
  · cases h
    rfl
  · split at h
    · cases h
    · split at h
      · cases h
      · split at h
        · cases h
        · cases h
          rfl

theorem stepOp_finishReason (ss : StreamState) (op : StreamOp) :
    ∀ c ∈ (ss.stepOp op).2, c.finishReason = none := by
  cases op with
  | initC =>
    intro c hc
    simp only [StreamState.stepOp] at hc
    simp only [List.mem_singleton] at hc
    subst hc
    rfl
  | delta t =>
    intro c hc
    simp only [StreamState.stepOp] at hc
    rcases hr : ss.textDeltaChunk t with ⟨ss', oc⟩
    rw [hr] at hc
    cases oc with
    | none => simp at hc
    | some c' =>
      simp only [List.mem_singleton] at hc
      subst hc
      exact textDeltaChunk_chunk_finishReason ss t c (by rw [hr])
  | event raw =>
    intro c hc
    simp only [StreamState.stepOp, StreamState.handleStreamEvent] at hc
    split at hc
    · simp only [List.mem_singleton] at hc
      subst hc
      rfl
    · split at hc
      · split at hc
        · simp at hc
        · rcases hr : ss.textDeltaChunk (Ccwire.deltaText raw).toList with ⟨ss', oc⟩
          rw [hr] at hc
          cases oc with
          | none => simp at hc
          | some c' =>
            simp only [List.mem_singleton] at hc
            subst hc
            exact textDeltaChunk_chunk_finishReason ss _ c (by rw [hr])
      · simp at hc

theorem runOps_finishReason (ops : List StreamOp) (ss : StreamState) :
    ∀ c ∈ (ss.runOps ops).2, c.finishReason = none := by
  induction ops generalizing ss with
  | nil => simp [StreamState.runOps]
  | cons op ops ih =>
    intro c hc
    simp only [StreamState.runOps, List.mem_append] at hc
    rcases hc with hc | hc
    · exact stepOp_finishReason ss op c hc
    · exact ih _ c hc

theorem finishChunk_shape (gen : Nat → Option String) (ss : StreamState) :
    ∃ r, (r = "tool_calls" ∨ r = "stop") ∧
      (ss.finishChunk gen).map Chunk.finishReason =
        List.replicate ((ss.finishChunk gen).length - 1) none ++ [some r] := by
  simp only [StreamState.finishChunk]
  split
  · split
    · split
      · exact ⟨"tool_calls", Or.inl rfl, by simp [makeContentChunk]⟩
      · exact ⟨"tool_calls", Or.inl rfl, by simp⟩
    · split
      · exact ⟨"stop", Or.inr rfl, by simp [makeContentChunk]⟩
      · exact ⟨"stop", Or.inr rfl, by simp⟩
  · exact ⟨"stop", Or.inr rfl, by simp⟩

/-- C2: in every streaming run (any sequence of InitChunk, TextDeltaChunk and
HandleStreamEvent calls followed by one FinishChunk call) exactly one emitted
chunk carries a non-nil finish reason: all chunks emitted before FinishChunk
have a nil finish reason, and the chunk list FinishChunk returns ends in
exactly one chunk whose finish reason is "tool_calls" or "stop". -/
theorem exactly_one_terminal_chunk (gen : Nat → Option String) (hasTools : Bool)
    (ops : List StreamOp) :
    ∃ r, (r = "tool_calls" ∨ r = "stop") ∧
      (((StreamState.new hasTools).runOps ops).2 ++
          ((StreamState.new hasTools).runOps ops).1.finishChunk gen).map Chunk.finishReason =
        List.replicate
          ((((StreamState.new hasTools).runOps ops).2 ++
            ((StreamState.new hasTools).runOps ops).1.finishChunk gen).length - 1) none ++
          [some r] := by
  obtain ⟨r, hr, hfin⟩ :=
    finishChunk_shape gen ((StreamState.new hasTools).runOps ops).1
  refine ⟨r, hr, ?_⟩
  have hpre : (((StreamState.new hasTools).runOps ops).2).map Chunk.finishReason =
      List.replicate (((StreamState.new hasTools).runOps ops).2.length) none := by
    apply List.eq_replicate_iff.mpr
    refine ⟨by simp, ?_⟩
    intro b hb
    rcases List.mem_map.mp hb with ⟨c, hc, hcb⟩
    rw [← hcb]
    exact runOps_finishReason ops _ c hc
  have hm : (((StreamState.new hasTools).runOps ops).1.finishChunk gen).length =
      (((StreamState.new hasTools).runOps ops).1.finishChunk gen).length - 1 + 1 := by
    have := congrArg List.length hfin
    simp at this
    omega
  rw [List.map_append, hpre, hfin, List.length_append]
  rw [show (((StreamState.new hasTools).runOps ops).2.length +
      (((StreamState.new hasTools).runOps ops).1.finishChunk gen).length - 1) =
      ((StreamState.new hasTools).runOps ops).2.length +
      ((((StreamState.new hasTools).runOps ops).1.finishChunk gen).length - 1) by omega]
  rw [List.replicate_add, List.append_assoc]

theorem buildParts_conv (msgs : List MChatMessage) :
    ∀ conv sys : List String,
      (buildParts sys conv msgs).2 = conv ++ msgs.filterMap specPromptContribution := by
  induction msgs with
  | nil => intro conv sys; simp [buildParts]
  | cons m rest ih =>
    intro conv sys
    simp only [buildParts, specPromptContribution, List.filterMap_cons]
    by_cases h1 : m.role = "system"
    · simp only [h1, if_true]
      rw [ih]
    · simp only [h1, if_false]
      by_cases h2 : m.role = "user"
      · simp only [h2, if_true]
        rw [ih]
        simp
      · simp only [h2, if_false]
        by_cases h3 : m.role = "assistant"
        · simp only [h3, if_true]
          rw [ih]
          simp
        · simp only [h3, if_false]
          by_cases h4 : m.role = "tool"
          · simp only [h4, if_true]
            rw [ih]
            simp
          · simp only [h4, if_false]
            rw [ih]

/-- C8: the prompt is the blank-line join, in message order, of the
per-message contributions; a user message with string content s contributes
"[user]: " followed by s, and a tool message with call id i and string
content c contributes "[tool_result for i]: " followed by c. -/
theorem prompt_roundtrip_encoding :
    (∀ msgs : List MChatMessage,
        requestToQueryPrompt msgs =
          String.intercalate "\n\n" (msgs.filterMap specPromptContribution)) ∧
    (∀ (s : String) (tcs : List ToolCall) (i : String),
        specPromptContribution
          { role := "user", content := .mstr s, toolCalls := tcs, toolCallID := i } =
          some ("[user]: " ++ s)) ∧
    (∀ (i c : String) (tcs : List ToolCall),
        specPromptContribution
          { role := "tool", content := .mstr c, toolCalls := tcs, toolCallID := i } =
          some ("[tool_result for " ++ i ++ "]: " ++ c)) := by
  refine ⟨?_, ?_, ?_⟩
  · intro msgs
    simp only [requestToQueryPrompt]
    rw [buildParts_conv msgs [] []]
    simp
  · intro s tcs i
    simp [specPromptContribution, stringContent]
  · intro i c tcs
    simp [specPromptContribution, stringContent]

/-- C9: the usage of every response built by ResultToResponse satisfies
prompt = input + cache_read + cache_creation, completion = output, and
total = prompt + completion, in exact integer arithmetic. -/
theorem response_usage_arithmetic (gen : Nat → Option String)
    (result : Ccwire.ResultMessage) (assistant : Option Ccwire.AssistantMessage)
    (hasTools : Bool) :
    (resultToResponse gen result assistant hasTools).usage.promptTokens =
        result.usage.inputTokens + result.usage.cacheReadInputTokens +
          result.usage.cacheCreationInputTokens ∧
    (resultToResponse gen result assistant hasTools).usage.completionTokens =
        result.usage.outputTokens ∧
    (resultToResponse gen result assistant hasTools).usage.totalTokens =
        (resultToResponse gen result assistant hasTools).usage.promptTokens +
          (resultToResponse gen result assistant hasTools).usage.completionTokens := by
  have husage : (resultToResponse gen result assistant hasTools).usage =
      usageFromResult result.usage := by
    simp only [resultToResponse]
    cases hasTools with
    | false => simp
    | true =>
      simp only [if_true]
      split <;> split <;> rfl
  rw [husage]
  exact ⟨rfl, rfl, rfl⟩

end Oai

end CCSdk
